import Mathlib

/-!
# Thread-pool ray tracing (Task4/ThreadPoolRayTracing_2.cpp)

A shallow embedding of the tile producer, the worker, the result consumer and
the worker loop of the thread pool, followed by the properties of the tiling
and of the assembled image.

C++ `int` values are modelled by `Int`.  Signed overflow is undefined behaviour
in C++; the lemma `produceN_in_range` shows that for a granularity of at least
1 the cursor of a fresh producer never leaves `[0, max width 1)` and
`[0, max heigth 0 + gran)`, so no overflow occurs as long as `width + gran` and
`heigth + gran` are representable.
-/

/-! ## Tasks and results -/

/-- The payload of `struct RayTracingTask : TaskBase`. -/
structure RayTracingTask where
  x : Int
  y : Int
  w : Int
  h : Int
deriving DecidableEq, Repr

/-- The dynamic type of a `TaskBase*`: a plain `TaskBase`, a `TaskStop` or a
`RayTracingTask`. -/
inductive TaskBase where
  | base : TaskBase
  | stop : TaskBase
  | tile : RayTracingTask → TaskBase
deriving DecidableEq, Repr

namespace TaskBase

/-- The virtual method `isStop`: overridden to `true` by `TaskStop` only. -/
def isStop : TaskBase → Bool
  | stop => true
  | _ => false

end TaskBase

/-- The payload of `struct RayTracingResult : ResultBase`. -/
structure RayTracingResult (Color : Type) where
  task : RayTracingTask
  pixels : List (List Color)

/-- The dynamic type of a `ResultBase*`: a plain `ResultBase` or a
`RayTracingResult`. -/
inductive ResultBase (Color : Type) where
  | base : ResultBase Color
  | tileResult : RayTracingResult Color → ResultBase Color

namespace ResultBase

end ResultBase

/-- The exceptions the code can raise: the explicit `throw std::exception()` of
a failed downcast, and the `std::length_error` of a `vector::resize` whose
`int` argument is negative (it converts to a `size_type` above `max_size`). -/
inductive Exc where
  | stdException : Exc
  | lengthError : Exc
deriving DecidableEq, Repr

/-! ## The task producer -/

/-- The fields of `class RayTracingTaskProducer` (the mutex is represented by
`produce` being one atomic state transition). -/
structure RayTracingTaskProducer where
  width : Int
  heigth : Int
  gran : Int
  posX : Int
  posY : Int
deriving DecidableEq, Repr

namespace RayTracingTaskProducer

/-- The constructor `RayTracingTaskProducer(width0, heigth0, gran0)`. -/
def init (width0 heigth0 gran0 : Int) : RayTracingTaskProducer :=
  { width := width0, heigth := heigth0, gran := gran0, posX := 0, posY := 0 }

/-- The method `produce`: the returned task and the producer afterwards. -/
def produce (p : RayTracingTaskProducer) : TaskBase × RayTracingTaskProducer :=
  if p.posY ≥ p.heigth then
    (TaskBase.stop, p)
  else
    let task : RayTracingTask :=
      { x := p.posX, y := p.posY,
        w := min p.gran (p.width - p.posX),
        h := min p.gran (p.heigth - p.posY) }
    let posX := p.posX + p.gran
    if posX ≥ p.width then
      (TaskBase.tile task, { p with posX := 0, posY := p.posY + p.gran })
    else
      (TaskBase.tile task, { p with posX := posX })

/-- The producer after `n` consecutive `produce` calls. -/
def produceN : Nat → RayTracingTaskProducer → RayTracingTaskProducer
  | 0, p => p
  | n + 1, p => produceN n (produce p).2

/-- The task returned by call number `k` (counted from 0) on `p`. -/
def nthCall (p : RayTracingTaskProducer) (k : Nat) : TaskBase :=
  (produce (produceN k p)).1

/-- A serial drain: the tasks returned by repeated `produce` calls before the
first stop task; `none` when `fuel` calls did not reach a stop task. -/
def drain : Nat → RayTracingTaskProducer → Option (List TaskBase)
  | 0, _ => none
  | fuel + 1, p =>
    let r := produce p
    if r.1.isStop then some []
    else (drain fuel r.2).map (fun ts => r.1 :: ts)

end RayTracingTaskProducer

/-- Modelled from the spec: the output surface `Image` of the external `minirt`
library, seen through its only operation used here, `set(x, y, color)`; a
surface is the colour it holds at every position. -/
def Image (Color : Type) : Type := Int → Int → Color

/-- Modelled from the spec: `image.set(x, y, color)` stores `color` at
position `(x, y)` and leaves every other position as it was. -/
def Image.set {Color : Type} (image : Image Color) (x y : Int) (color : Color) :
    Image Color :=
  fun x' y' => if x' = x ∧ y' = y then color else image x' y'

/-- The external renderer `ViewPlane`, seen through its pure method
`computePixel(scene, x, y, numOfSamples)`. -/
structure ViewPlane (Scene Color : Type) where
  computePixel : Scene → Int → Int → Int → Color

/-- The fields of `class RayTracingWorker`. -/
structure RayTracingWorker (Scene Color : Type) where
  viewPlane : ViewPlane Scene Color
  scene : Scene
  numOfSamples : Int

/-- The call `v.resize(n)` of a `std::vector` with an `int` argument: the new
length, or `std::length_error` when `n` is negative. -/
def vectorResize (n : Int) : Except Exc Nat :=
  if n < 0 then Except.error Exc.lengthError else Except.ok n.toNat

/-- The method `RayTracingWorker::run`. -/
def RayTracingWorker.run {Scene Color : Type} (worker : RayTracingWorker Scene Color)
    (taskBase : TaskBase) : Except Exc (ResultBase Color) :=
  match taskBase with
  | TaskBase.tile task => do
    let n ← vectorResize task.w
    let pixels ← (List.range n).mapM (fun (i : Nat) => do
      let m ← vectorResize task.h
      pure ((List.range m).map (fun (j : Nat) =>
        worker.viewPlane.computePixel worker.scene (task.x + i) (task.y + j)
          worker.numOfSamples)))
    pure (ResultBase.tileResult { task := task, pixels := pixels })
  | _ => Except.error Exc.stdException

/-- The pixel grid `run` computes for a tile. -/
def tilePixels {Scene Color : Type} (worker : RayTracingWorker Scene Color)
    (task : RayTracingTask) : List (List Color) :=
  (List.range task.w.toNat).map (fun (i : Nat) =>
    (List.range task.h.toNat).map (fun (j : Nat) =>
      worker.viewPlane.computePixel worker.scene (task.x + i) (task.y + j)
        worker.numOfSamples))

/-- The element `pixels[i][j]`; reading outside the vectors is undefined
behaviour in C++ and yields the default colour here. -/
def pixelAt {Color : Type} [Inhabited Color] (pixels : List (List Color)) (i j : Nat) :
    Color :=
  (pixels.getD i []).getD j default

/-- The two nested loops of `RayTracingResultConsumer::consume`. -/
def consumeTile {Color : Type} [Inhabited Color] (result : RayTracingResult Color)
    (image : Image Color) : Image Color :=
  let task := result.task
  (List.range task.w.toNat).foldl (fun (img : Image Color) (i : Nat) =>
    (List.range task.h.toNat).foldl (fun (img : Image Color) (j : Nat) =>
      img.set (task.x + i) (task.y + j) (pixelAt result.pixels i j)) img) image

/-- The method `RayTracingResultConsumer::consume`: whether it raised, and the
image afterwards. -/
def RayTracingResultConsumer.consume {Color : Type} [Inhabited Color]
    (resultBase : ResultBase Color) (image : Image Color) :
    Except Exc Unit × Image Color :=
  match resultBase with
  | ResultBase.tileResult result => (Except.ok (), consumeTile result image)
  | _ => (Except.error Exc.stdException, image)

/-- The loop of `ThreadPool::WorkerThread` run by one thread alone: `none` when
`fuel` iterations did not reach the `break`, otherwise whether the loop ended
by an exception, with the producer and the image afterwards. -/
def WorkerThread {Scene Color : Type} [Inhabited Color] (worker : RayTracingWorker Scene Color) :
    Nat → RayTracingTaskProducer → Image Color →
      Option (Except Exc Unit × RayTracingTaskProducer × Image Color)
  | 0, _, _ => none
  | fuel + 1, producer, image =>
    let r := producer.produce
    if r.1.isStop then some (Except.ok (), r.2, image)
    else
      match worker.run r.1 with
      | Except.error e => some (Except.error e, r.2, image)
      | Except.ok result =>
        match RayTracingResultConsumer.consume result image with
        | (Except.error e, image1) => some (Except.error e, r.2, image1)
        | (Except.ok _, image1) => WorkerThread worker fuel r.2 image1

/-- Where one thread stands in `WorkerThread`: before `producer.produce()`,
before `worker->run(task)`, before `consumer.consume(result)`, after the
`break`, or ended by an exception.  (In C++ an exception that leaves the
thread function ends the whole process; here the other threads may go on,
which only adds interleavings.) -/
inductive ThreadPC (Color : Type) where
  | loop : ThreadPC Color
  | execute : TaskBase → ThreadPC Color
  | publish : ResultBase Color → ThreadPC Color
  | terminate : ThreadPC Color
  | aborted : Exc → ThreadPC Color

/-- Whether the thread has left its loop. -/
def ThreadPC.exited {Color : Type} : ThreadPC Color → Bool
  | ThreadPC.terminate => true
  | ThreadPC.aborted _ => true
  | _ => false

/-- One thread of the pool: its position, and the record of the non-stop tasks
it has received from the producer, oldest first. -/
structure PoolThread (Color : Type) where
  pc : ThreadPC Color
  received : List TaskBase

/-- The state shared by the threads of one `ThreadPool::run`, and the
threads. -/
structure PoolState (Color : Type) where
  producer : RayTracingTaskProducer
  image : Image Color
  threads : List (PoolThread Color)

namespace ThreadPool

/-- The state at the start of `run(workers_num)` on a fresh producer. -/
def start {Color : Type} (width heigth gran workers_num : Int) (image : Image Color) :
    PoolState Color :=
  { producer := RayTracingTaskProducer.init width heigth gran
    image := image
    threads := List.replicate workers_num.toNat { pc := ThreadPC.loop, received := [] } }

/-- One step of thread `i`: the `produce` call (atomic under the mutex), the
`run` call (local to the thread) or the `consume` call (the writes of one
result, taken as one step); `none` when there is no thread `i` or it has left
its loop. -/
def stepThread {Scene Color : Type} [Inhabited Color] (worker : RayTracingWorker Scene Color)
    (s : PoolState Color) (i : Nat) : Option (PoolState Color) :=
  match s.threads[i]? with
  | none => none
  | some th =>
    match th.pc with
    | ThreadPC.loop =>
      let r := s.producer.produce
      if r.1.isStop then
        some { s with producer := r.2,
                      threads := s.threads.set i { th with pc := ThreadPC.terminate } }
      else
        some { s with producer := r.2,
                      threads := s.threads.set i
                        { pc := ThreadPC.execute r.1, received := th.received ++ [r.1] } }
    | ThreadPC.execute task =>
      match worker.run task with
      | Except.error e =>
        some { s with threads := s.threads.set i { th with pc := ThreadPC.aborted e } }
      | Except.ok result =>
        some { s with threads := s.threads.set i { th with pc := ThreadPC.publish result } }
    | ThreadPC.publish result =>
      match RayTracingResultConsumer.consume result s.image with
      | (Except.error e, image1) =>
        some { s with image := image1,
                      threads := s.threads.set i { th with pc := ThreadPC.aborted e } }
      | (Except.ok _, image1) =>
        some { s with image := image1,
                      threads := s.threads.set i { th with pc := ThreadPC.loop } }
    | ThreadPC.terminate => none
    | ThreadPC.aborted _ => none

/-- An interleaving: the threads step in the order of the schedule; `none`
when the schedule names a thread that cannot step. -/
def exec {Scene Color : Type} [Inhabited Color] (worker : RayTracingWorker Scene Color) :
    List Nat → PoolState Color → Option (PoolState Color)
  | [], s => some s
  | i :: rest, s =>
    match stepThread worker s i with
    | none => none
    | some s1 => exec worker rest s1

/-- The non-stop tasks received by all threads together. -/
def receivedTasks {Color : Type} (s : PoolState Color) : List TaskBase :=
  (s.threads.map (fun th => th.received)).flatten

end ThreadPool


/-- The `THREAD_POOL` branch of `main` up to `threadPool.run(num_threads)`: the
parsed command-line values go to the producer and the pool as they are. -/
def mainPool {Color : Type} (viewPlaneResolutionX viewPlaneResolutionY granularity
    num_threads : Int) (image : Image Color) : PoolState Color :=
  ThreadPool.start viewPlaneResolutionX viewPlaneResolutionY granularity num_threads image

/-! ## Bookkeeping of the pool -/

/-- A position that holds only what the producer and the worker hand out for
an image of non-negative size: a tile of non-negative extent before `run`, the
result `run` computes for a tile before `consume`, and no exception. -/
def ThreadPC.sound {Scene Color : Type} (worker : RayTracingWorker Scene Color) :
    ThreadPC Color → Prop
  | ThreadPC.execute t => ∃ rt, t = TaskBase.tile rt ∧ 0 ≤ rt.w ∧ 0 ≤ rt.h
  | ThreadPC.publish r =>
    ∃ rt, r = ResultBase.tileResult { task := rt, pixels := tilePixels worker rt }
  | ThreadPC.aborted _ => False
  | _ => True

/-- The pool state agrees with the calls made so far on the producer `p0` it
started from: the producer has advanced by one call per received task, the
received tasks are the results of these calls, none of them a stop task, and a
thread has left its loop by `break` only if the next call returns the stop
task. -/
structure ThreadPool.Consistent {Color : Type} (p0 : RayTracingTaskProducer)
    (s : PoolState Color) : Prop where
  producer_eq : s.producer = p0.produceN (ThreadPool.receivedTasks s).length
  received_perm : (ThreadPool.receivedTasks s).Perm
    ((List.range (ThreadPool.receivedTasks s).length).map p0.nthCall)
  not_stop : ∀ j, j < (ThreadPool.receivedTasks s).length → (p0.nthCall j).isStop = false
  stop_seen : ∀ th ∈ s.threads, th.pc = ThreadPC.terminate →
    (p0.nthCall (ThreadPool.receivedTasks s).length).isStop = true

/-! ## The grid of tiles -/

namespace RayTracingTaskProducer

theorem produce_stop {p : RayTracingTaskProducer} (h : p.heigth ≤ p.posY) :
    produce p = (TaskBase.stop, p) := by
  unfold produce
  rw [if_pos h]

theorem produce_wrap {p : RayTracingTaskProducer} (h : p.posY < p.heigth)
    (hx : p.width ≤ p.posX + p.gran) :
    produce p = (TaskBase.tile
      { x := p.posX, y := p.posY, w := min p.gran (p.width - p.posX),
        h := min p.gran (p.heigth - p.posY) },
      { p with posX := 0, posY := p.posY + p.gran }) := by
  unfold produce
  rw [if_neg (by omega)]
  simp only []
  rw [if_pos hx]

theorem produce_advance {p : RayTracingTaskProducer} (h : p.posY < p.heigth)
    (hx : p.posX + p.gran < p.width) :
    produce p = (TaskBase.tile
      { x := p.posX, y := p.posY, w := min p.gran (p.width - p.posX),
        h := min p.gran (p.heigth - p.posY) },
      { p with posX := p.posX + p.gran }) := by
  unfold produce
  rw [if_neg (by omega)]
  simp only []
  rw [if_neg (by omega)]

theorem produce_isStop_iff (p : RayTracingTaskProducer) :
    (produce p).1.isStop = true ↔ p.heigth ≤ p.posY := by
  by_cases h : p.heigth ≤ p.posY
  · simp [produce_stop h, TaskBase.isStop, h]
  · by_cases hx : p.width ≤ p.posX + p.gran
    · simp [produce_wrap (by omega) hx, TaskBase.isStop, h]
    · simp [produce_advance (p := p) (by omega) (by omega), TaskBase.isStop, h]

theorem produce_eq_stop_iff (p : RayTracingTaskProducer) :
    (produce p).1 = TaskBase.stop ↔ p.heigth ≤ p.posY := by
  rw [← produce_isStop_iff]
  cases h : (produce p).1 <;> simp [TaskBase.isStop]

theorem produceN_succ (n : Nat) (p : RayTracingTaskProducer) :
    produceN (n + 1) p = (produce (produceN n p)).2 := by
  induction n generalizing p with
  | zero => rfl
  | succ n ih =>
    show produceN (n + 1) (produce p).2 = _
    rw [ih]
    rfl

theorem produceN_stop {p : RayTracingTaskProducer} (h : p.heigth ≤ p.posY) (n : Nat) :
    produceN n p = p := by
  induction n with
  | zero => rfl
  | succ n ih =>
    show produceN n (produce p).2 = p
    rw [produce_stop h]
    exact ih

end RayTracingTaskProducer

namespace RayTracingTaskProducer

end RayTracingTaskProducer

/-! ## The tiles of a drain partition the image -/

namespace RayTracingTaskProducer

end RayTracingTaskProducer

namespace RayTracingTaskProducer

end RayTracingTaskProducer

/-- C5 (stop is absorbing): for every producer state, a `produce` call that
returns the stop task leaves the producer (its cursor included) unchanged, and
every later call returns the stop task again. -/
theorem stop_is_absorbing (p : RayTracingTaskProducer)
    (h : (RayTracingTaskProducer.produce p).1 = TaskBase.stop) :
    (RayTracingTaskProducer.produce p).2 = p ∧
    ∀ n, RayTracingTaskProducer.nthCall (RayTracingTaskProducer.produce p).2 n =
      TaskBase.stop := by
  have hy := (RayTracingTaskProducer.produce_eq_stop_iff p).1 h
  have hp := RayTracingTaskProducer.produce_stop hy
  rw [hp]
  refine ⟨rfl, fun n => ?_⟩
  unfold RayTracingTaskProducer.nthCall
  rw [RayTracingTaskProducer.produceN_stop hy, hp]

/-- C5 on the producer of a 3 x 2 image with its cursor below the image. -/
theorem stop_is_absorbing_witness :
    (RayTracingTaskProducer.produce ⟨3, 2, 1, 0, 2⟩).1 = TaskBase.stop ∧
    (RayTracingTaskProducer.produce ⟨3, 2, 1, 0, 2⟩).2 = ⟨3, 2, 1, 0, 2⟩ ∧
    RayTracingTaskProducer.nthCall (RayTracingTaskProducer.produce ⟨3, 2, 1, 0, 2⟩).2 5 =
      TaskBase.stop :=
  ⟨by decide, (stop_is_absorbing ⟨3, 2, 1, 0, 2⟩ (by decide)).1,
    (stop_is_absorbing ⟨3, 2, 1, 0, 2⟩ (by decide)).2 5⟩

/-! ## The loops that write the image -/

theorem vectorResize_ok {n : Int} (h : 0 ≤ n) : vectorResize n = Except.ok n.toNat := by
  unfold vectorResize
  rw [if_neg (by omega)]

theorem mapM_ok {α β : Type} (f : α → β) (l : List α) :
    l.mapM (fun a => (Except.ok (f a) : Except Exc β)) = Except.ok (l.map f) := by
  induction l with
  | nil => rfl
  | cons a l ih =>
    rw [List.mapM_cons, ih]
    rfl

theorem RayTracingWorker.run_tile_ok {Scene Color : Type}
    (worker : RayTracingWorker Scene Color) (t : RayTracingTask) (hw : 0 ≤ t.w)
    (hh : t.w = 0 ∨ 0 ≤ t.h) :
    worker.run (TaskBase.tile t) =
      Except.ok (ResultBase.tileResult { task := t, pixels := tilePixels worker t }) := by
  unfold RayTracingWorker.run
  simp only [vectorResize_ok hw]
  rcases hh with h0 | hh
  · have e : t.w.toNat = 0 := by omega
    simp only [tilePixels, e, List.range_zero]
    rfl
  · simp only [vectorResize_ok hh]
    have := mapM_ok (fun i : Nat => (List.range t.h.toNat).map (fun j : Nat =>
      worker.viewPlane.computePixel worker.scene (t.x + i) (t.y + j) worker.numOfSamples))
      (List.range t.w.toNat)
    simp only [bind, Except.bind, pure, Except.pure] at this ⊢
    rw [this]
    rfl

namespace RayTracingTaskProducer

/-- With a granularity of 0 or less, a producer whose cursor is inside the
image rows never reaches the stop task. -/
theorem drain_nonpos (fuel : Nat) : ∀ (p : RayTracingTaskProducer),
    p.gran ≤ 0 → p.posY < p.heigth → drain fuel p = none := by
  induction fuel with
  | zero => intro p _ _; rfl
  | succ fuel ih =>
    intro p hg hy
    by_cases hw : p.width ≤ p.posX + p.gran
    · have hp := produce_wrap (p := p) hy hw
      simp only [drain, hp, TaskBase.isStop, Bool.false_eq_true, if_false]
      rw [ih _ (by simpa using hg) (by simp; omega)]
      rfl
    · have hp := produce_advance (p := p) hy (by omega)
      simp only [drain, hp, TaskBase.isStop, Bool.false_eq_true, if_false]
      rw [ih _ (by simpa using hg) (by simpa using hy)]
      rfl

end RayTracingTaskProducer

namespace RayTracingTaskProducer

end RayTracingTaskProducer

theorem flatten_map_set_perm {α β : Type} (f : α → List β) (l : List α) (i : Nat) (a b : α)
    (x : β) (h : l[i]? = some a) (hb : f b = f a ++ [x]) :
    ((l.set i b).map f).flatten.Perm (x :: (l.map f).flatten) := by
  induction l generalizing i with
  | nil => simp at h
  | cons c l ih =>
    cases i with
    | zero =>
      simp only [List.getElem?_cons_zero, Option.some.injEq] at h
      subst h
      simp only [List.set_cons_zero, List.map_cons, List.flatten_cons, hb]
      rw [List.append_assoc]
      exact List.perm_middle
    | succ i =>
      simp only [List.getElem?_cons_succ] at h
      have := ih i h
      simp only [List.set_cons_succ, List.map_cons, List.flatten_cons]
      exact (List.Perm.append_left _ this).trans List.perm_middle

theorem flatten_map_set_eq {α β : Type} (f : α → List β) (l : List α) (i : Nat) (a b : α)
    (h : l[i]? = some a) (hb : f b = f a) :
    ((l.set i b).map f).flatten = (l.map f).flatten := by
  induction l generalizing i with
  | nil => simp at h
  | cons c l ih =>
    cases i with
    | zero =>
      simp only [List.getElem?_cons_zero, Option.some.injEq] at h
      subst h
      simp only [List.set_cons_zero, List.map_cons, List.flatten_cons, hb]
    | succ i =>
      simp only [List.getElem?_cons_succ] at h
      simp only [List.set_cons_succ, List.map_cons, List.flatten_cons, ih i h]

theorem mem_of_getElem?_eq_some {α : Type} (l : List α) (i : Nat) (a : α) (h : l[i]? = some a) :
    a ∈ l := by
  induction l generalizing i with
  | nil => simp at h
  | cons c l ih =>
    cases i with
    | zero =>
      simp only [List.getElem?_cons_zero, Option.some.injEq] at h
      subst h
      exact List.mem_cons_self _ _
    | succ i =>
      simp only [List.getElem?_cons_succ] at h
      exact List.mem_cons_of_mem _ (ih i h)

theorem mem_set_cases {α : Type} (l : List α) (i : Nat) (b c : α) (h : c ∈ l.set i b) :
    c = b ∨ c ∈ l := by
  induction l generalizing i with
  | nil => simp at h
  | cons d l ih =>
    cases i with
    | zero =>
      simp only [List.set_cons_zero, List.mem_cons] at h
      rcases h with h | h
      · exact Or.inl h
      · exact Or.inr (List.mem_cons_of_mem _ h)
    | succ i =>
      simp only [List.set_cons_succ, List.mem_cons] at h
      rcases h with h | h
      · exact Or.inr (h ▸ List.mem_cons_self _ _)
      · rcases ih i h with h | h
        · exact Or.inl h
        · exact Or.inr (List.mem_cons_of_mem _ h)

/-! ## Steps of the pool -/

namespace ThreadPool

/-- The cases of one step of thread `i`. -/
theorem stepThread_some {Scene Color : Type} [Inhabited Color]
    (worker : RayTracingWorker Scene Color) (s s' : PoolState Color) (i : Nat)
    (h : stepThread worker s i = some s') :
    ∃ th th', s.threads[i]? = some th ∧ s'.threads = s.threads.set i th' ∧
      ((th.pc = ThreadPC.loop ∧ s.producer.produce.1.isStop = true ∧
          th'.pc = ThreadPC.terminate ∧ th'.received = th.received ∧
          s'.producer = s.producer.produce.2 ∧ s'.image = s.image) ∨
       (th.pc = ThreadPC.loop ∧ s.producer.produce.1.isStop = false ∧
          th'.pc = ThreadPC.execute s.producer.produce.1 ∧
          th'.received = th.received ++ [s.producer.produce.1] ∧
          s'.producer = s.producer.produce.2 ∧ s'.image = s.image) ∨
       (∃ task, th.pc = ThreadPC.execute task ∧ th'.received = th.received ∧
          s'.producer = s.producer ∧ s'.image = s.image ∧
          ((∃ e, worker.run task = Except.error e ∧ th'.pc = ThreadPC.aborted e) ∨
           (∃ r, worker.run task = Except.ok r ∧ th'.pc = ThreadPC.publish r))) ∨
       (∃ result, th.pc = ThreadPC.publish result ∧ th'.received = th.received ∧
          s'.producer = s.producer ∧
          s'.image = (RayTracingResultConsumer.consume result s.image).2 ∧
          ((∃ e, (RayTracingResultConsumer.consume result s.image).1 = Except.error e ∧
              th'.pc = ThreadPC.aborted e) ∨
           ((RayTracingResultConsumer.consume result s.image).1 = Except.ok () ∧
              th'.pc = ThreadPC.loop)))) := by
  unfold stepThread at h
  cases hth : s.threads[i]? with
  | none => simp [hth] at h
  | some th =>
    simp only [hth] at h
    cases hpc : th.pc with
    | loop =>
      simp only [hpc] at h
      by_cases hs : s.producer.produce.1.isStop = true
      · rw [if_pos hs] at h
        cases h
        exact ⟨th, _, rfl, rfl, Or.inl ⟨hpc, hs, rfl, rfl, rfl, rfl⟩⟩
      · rw [if_neg hs] at h
        cases h
        exact ⟨th, _, rfl, rfl, Or.inr (Or.inl ⟨hpc, by simpa using hs, rfl, rfl, rfl, rfl⟩)⟩
    | execute task =>
      simp only [hpc] at h
      cases hr : worker.run task with
      | error e =>
        simp only [hr] at h
        cases h
        exact ⟨th, _, rfl, rfl, Or.inr (Or.inr (Or.inl
          ⟨task, hpc, rfl, rfl, rfl, Or.inl ⟨e, hr, rfl⟩⟩))⟩
      | ok r =>
        simp only [hr] at h
        cases h
        exact ⟨th, _, rfl, rfl, Or.inr (Or.inr (Or.inl
          ⟨task, hpc, rfl, rfl, rfl, Or.inr ⟨r, hr, rfl⟩⟩))⟩
    | publish result =>
      simp only [hpc] at h
      cases result with
      | base =>
        simp only [RayTracingResultConsumer.consume] at h
        cases h
        exact ⟨th, _, rfl, rfl, Or.inr (Or.inr (Or.inr
          ⟨ResultBase.base, hpc, rfl, rfl, rfl, Or.inl ⟨_, rfl, rfl⟩⟩))⟩
      | tileResult r =>
        simp only [RayTracingResultConsumer.consume] at h
        cases h
        exact ⟨th, _, rfl, rfl, Or.inr (Or.inr (Or.inr
          ⟨ResultBase.tileResult r, hpc, rfl, rfl, rfl, Or.inr ⟨rfl, rfl⟩⟩))⟩
    | terminate => simp [hpc] at h
    | aborted e => simp [hpc] at h

/-- A property that holds at the start and is kept by every step holds after
every interleaving. -/
theorem exec_induction {Scene Color : Type} [Inhabited Color]
    (worker : RayTracingWorker Scene Color) (P : PoolState Color → Prop)
    (hstep : ∀ s i s', P s → stepThread worker s i = some s' → P s') :
    ∀ (sched : List Nat) (s0 s : PoolState Color), P s0 → exec worker sched s0 = some s → P s := by
  intro sched
  induction sched with
  | nil =>
    intro s0 s h0 he
    simp only [exec, Option.some.injEq] at he
    exact he ▸ h0
  | cons i rest ih =>
    intro s0 s h0 he
    simp only [exec] at he
    cases hs : stepThread worker s0 i with
    | none => simp [hs] at he
    | some s1 =>
      simp only [hs] at he
      exact ih s1 s (hstep s0 i s1 h0 hs) he

end ThreadPool

/-! ## Invariants of the pool -/

namespace ThreadPool

theorem receivedTasks_set_eq {Color : Type} (s s' : PoolState Color) (i : Nat)
    (th th' : PoolThread Color) (hth : s.threads[i]? = some th)
    (hs' : s'.threads = s.threads.set i th') (hr : th'.received = th.received) :
    receivedTasks s' = receivedTasks s := by
  unfold receivedTasks
  rw [hs']
  exact flatten_map_set_eq (fun th => th.received) s.threads i th th' hth hr

theorem receivedTasks_set_perm {Color : Type} (s s' : PoolState Color) (i : Nat)
    (th th' : PoolThread Color) (t : TaskBase) (hth : s.threads[i]? = some th)
    (hs' : s'.threads = s.threads.set i th') (hr : th'.received = th.received ++ [t]) :
    (receivedTasks s').Perm (t :: receivedTasks s) := by
  unfold receivedTasks
  rw [hs']
  exact flatten_map_set_perm (fun th => th.received) s.threads i th th' t hth hr

/-- Every step keeps the pool consistent with the producer it started from. -/
theorem consistent_step {Scene Color : Type} [Inhabited Color]
    (worker : RayTracingWorker Scene Color) (p0 : RayTracingTaskProducer)
    (s s' : PoolState Color) (i : Nat) (hc : Consistent p0 s)
    (h : stepThread worker s i = some s') : Consistent p0 s' := by
  obtain ⟨th, th', hth, hs', hcase⟩ := stepThread_some worker s s' i h
  have hcall : (p0.nthCall (receivedTasks s).length) = s.producer.produce.1 := by
    rw [hc.producer_eq]; rfl
  have hkeep : ∀ th'' ∈ s'.threads, th''.pc = ThreadPC.terminate →
      th'.pc ≠ ThreadPC.terminate → th'' ∈ s.threads := by
    intro th'' hmem hpc hne
    rw [hs'] at hmem
    rcases mem_set_cases _ _ _ _ hmem with rfl | hold
    · exact absurd hpc hne
    · exact hold
  rcases hcase with ⟨_, hstop, _, hrec, hprod, _⟩ | ⟨_, hstop, hpc', hrec, hprod, _⟩ |
    ⟨task, _, hrec, hprod, _, hpc'⟩ | ⟨result, _, hrec, hprod, _, hpc'⟩
  · have he := receivedTasks_set_eq s s' i th th' hth hs' hrec
    have hy := (RayTracingTaskProducer.produce_isStop_iff s.producer).1 hstop
    refine ⟨?_, ?_, ?_, ?_⟩
    · rw [he, hprod, RayTracingTaskProducer.produce_stop hy]; exact hc.producer_eq
    · rw [he]; exact hc.received_perm
    · rw [he]; exact hc.not_stop
    · intro _ _ _
      rw [he, hcall]; exact hstop
  · have hp := receivedTasks_set_perm s s' i th th' _ hth hs' hrec
    have hlen : (receivedTasks s').length = (receivedTasks s).length + 1 := by
      rw [hp.length_eq]; rfl
    refine ⟨?_, ?_, ?_, ?_⟩
    · rw [hlen, hprod, RayTracingTaskProducer.produceN_succ, ← hc.producer_eq]
    · rw [hlen, List.range_succ, List.map_append, List.map_cons, List.map_nil, hcall]
      exact hp.trans ((List.Perm.cons _ hc.received_perm).trans
        (List.perm_append_singleton _ _).symm)
    · intro j hj
      rw [hlen] at hj
      by_cases hjk : j < (receivedTasks s).length
      · exact hc.not_stop j hjk
      · have : j = (receivedTasks s).length := by omega
        rw [this, hcall]; exact hstop
    · intro th'' hmem hpc
      have hold := hkeep th'' hmem hpc (by rw [hpc']; simp)
      have := hc.stop_seen th'' hold hpc
      rw [hcall, hstop] at this
      cases this
  · have he := receivedTasks_set_eq s s' i th th' hth hs' hrec
    refine ⟨?_, ?_, ?_, ?_⟩
    · rw [he, hprod]; exact hc.producer_eq
    · rw [he]; exact hc.received_perm
    · rw [he]; exact hc.not_stop
    · intro th'' hmem hpc
      rw [he]
      refine hc.stop_seen th'' (hkeep th'' hmem hpc ?_) hpc
      rcases hpc' with ⟨e, _, hp⟩ | ⟨r, _, hp⟩ <;> rw [hp] <;> simp
  · have he := receivedTasks_set_eq s s' i th th' hth hs' hrec
    refine ⟨?_, ?_, ?_, ?_⟩
    · rw [he, hprod]; exact hc.producer_eq
    · rw [he]; exact hc.received_perm
    · rw [he]; exact hc.not_stop
    · intro th'' hmem hpc
      rw [he]
      refine hc.stop_seen th'' (hkeep th'' hmem hpc ?_) hpc
      rcases hpc' with ⟨e, _, hp⟩ | ⟨_, hp⟩ <;> rw [hp] <;> simp

end ThreadPool

namespace ThreadPool

theorem receivedTasks_start {Color : Type} (w h g T : Int) (image : Image Color) :
    receivedTasks (start w h g T image) = [] := by
  unfold receivedTasks start
  simp only []
  induction T.toNat with
  | zero => rfl
  | succ n ih => simp [List.replicate_succ]

theorem consistent_start {Color : Type} (w h g T : Int) (image : Image Color) :
    Consistent (RayTracingTaskProducer.init w h g) (start w h g T image) := by
  refine ⟨?_, ?_, ?_, ?_⟩
  · rw [receivedTasks_start]; rfl
  · rw [receivedTasks_start]; exact List.Perm.refl _
  · rw [receivedTasks_start]; intro j hj; simp at hj
  · intro th hmem hpc
    have : th = { pc := ThreadPC.loop, received := [] } := List.eq_of_mem_replicate hmem
    rw [this] at hpc
    cases hpc

/-- When every non-stop task of the producer is a tile of non-negative extent,
no step raises an exception. -/
theorem sound_step {Scene Color : Type} [Inhabited Color]
    (worker : RayTracingWorker Scene Color) (p0 : RayTracingTaskProducer)
    (hwf : ∀ j, (p0.nthCall j).isStop = false →
      ∃ rt, p0.nthCall j = TaskBase.tile rt ∧ 0 ≤ rt.w ∧ 0 ≤ rt.h)
    (s s' : PoolState Color) (i : Nat) (hc : Consistent p0 s)
    (hs : ∀ th ∈ s.threads, ThreadPC.sound worker th.pc)
    (h : stepThread worker s i = some s') : ∀ th ∈ s'.threads, ThreadPC.sound worker th.pc := by
  obtain ⟨th, th', hth, hs', hcase⟩ := stepThread_some worker s s' i h
  have hcall : (p0.nthCall (receivedTasks s).length) = s.producer.produce.1 := by
    rw [hc.producer_eq]; rfl
  have hold := hs th (mem_of_getElem?_eq_some _ _ _ hth)
  intro th'' hmem
  rw [hs'] at hmem
  rcases mem_set_cases _ _ _ _ hmem with rfl | hmem'
  · rcases hcase with ⟨_, _, hpc', _⟩ | ⟨_, hstop, hpc', _⟩ |
      ⟨task, hpc, _, _, _, hpc'⟩ | ⟨result, hpc, _, _, _, hpc'⟩
    · rw [hpc']; trivial
    · rw [hpc', ← hcall]
      exact hwf _ (by rw [hcall]; exact hstop)
    · rw [hpc] at hold
      obtain ⟨rt, rfl, hw, hh⟩ := hold
      rw [worker.run_tile_ok rt hw (Or.inr hh)] at hpc'
      rcases hpc' with ⟨e, he, _⟩ | ⟨r, hr, hp⟩
      · cases he
      · rw [hp]
        cases hr
        exact ⟨rt, rfl⟩
    · rw [hpc] at hold
      obtain ⟨rt, rfl⟩ := hold
      rcases hpc' with ⟨e, he, _⟩ | ⟨_, hp⟩
      · simp [RayTracingResultConsumer.consume] at he
      · rw [hp]; trivial
  · exact hs th'' hmem'

end ThreadPool

namespace RayTracingTaskProducer

end RayTracingTaskProducer

namespace ThreadPool

theorem exec_consistent_start {Scene Color : Type} [Inhabited Color]
    (worker : RayTracingWorker Scene Color) (w h g T : Int) (image : Image Color)
    (sched : List Nat) (s : PoolState Color)
    (he : exec worker sched (start w h g T image) = some s) :
    Consistent (RayTracingTaskProducer.init w h g) s :=
  exec_induction worker (Consistent (RayTracingTaskProducer.init w h g))
    (fun s i s' hc hstep => consistent_step worker _ s s' i hc hstep) sched _ s
    (consistent_start w h g T image) he

theorem sound_start {Scene Color : Type} (worker : RayTracingWorker Scene Color)
    (w h g T : Int) (image : Image Color) :
    ∀ th ∈ (start w h g T image).threads, ThreadPC.sound worker th.pc := by
  intro th hmem
  have : th = { pc := ThreadPC.loop, received := [] } := List.eq_of_mem_replicate hmem
  rw [this]
  trivial

theorem exec_sound {Scene Color : Type} [Inhabited Color]
    (worker : RayTracingWorker Scene Color) (p0 : RayTracingTaskProducer)
    (hwf : ∀ j, (p0.nthCall j).isStop = false →
      ∃ rt, p0.nthCall j = TaskBase.tile rt ∧ 0 ≤ rt.w ∧ 0 ≤ rt.h)
    (sched : List Nat) (s0 s : PoolState Color) (hc : Consistent p0 s0)
    (hs : ∀ th ∈ s0.threads, ThreadPC.sound worker th.pc) (he : exec worker sched s0 = some s) :
    ∀ th ∈ s.threads, ThreadPC.sound worker th.pc :=
  (exec_induction worker (fun s => Consistent p0 s ∧ ∀ th ∈ s.threads, ThreadPC.sound worker th.pc)
    (fun s i s' hP hstep => ⟨consistent_step worker p0 s s' i hP.1 hstep,
      sound_step worker p0 hwf s s' i hP.1 hP.2 hstep⟩) sched s0 s ⟨hc, hs⟩ he).2

end ThreadPool

namespace ThreadPool

end ThreadPool

namespace RayTracingTaskProducer

/-- With granularity 0 on an image of positive size, a call on the fresh
producer returns the empty tile at the origin and leaves the producer as it
was. -/
theorem produce_gran_zero (w h : Int) (hw : 1 ≤ w) (hh : 1 ≤ h) :
    produce (init w h 0) = (TaskBase.tile ⟨0, 0, 0, 0⟩, init w h 0) := by
  have hp := produce_advance (p := init w h 0) (by simp [init]; omega) (by simp [init]; omega)
  rw [hp]
  simp only [init]
  have e1 : min (0 : Int) (w - 0) = 0 := by omega
  have e2 : min (0 : Int) (h - 0) = 0 := by omega
  rw [e1, e2]
  rfl

theorem produceN_gran_zero (w h : Int) (hw : 1 ≤ w) (hh : 1 ≤ h) (k : Nat) :
    produceN k (init w h 0) = init w h 0 := by
  induction k with
  | zero => rfl
  | succ k ih => rw [produceN_succ, ih, produce_gran_zero w h hw hh]

theorem nthCall_gran_zero (w h : Int) (hw : 1 ≤ w) (hh : 1 ≤ h) (k : Nat) :
    nthCall (init w h 0) k = TaskBase.tile ⟨0, 0, 0, 0⟩ := by
  unfold nthCall
  rw [produceN_gran_zero w h hw hh, produce_gran_zero w h hw hh]

end RayTracingTaskProducer

/-- With granularity 0 on an image of positive size the worker loop does not
reach its `break`, whatever the fuel. -/
theorem WorkerThread_gran_zero {Scene Color : Type} [Inhabited Color]
    (worker : RayTracingWorker Scene Color) (w h : Int) (hw : 1 ≤ w) (hh : 1 ≤ h)
    (fuel : Nat) : ∀ image : Image Color,
    WorkerThread worker fuel (RayTracingTaskProducer.init w h 0) image = none := by
  induction fuel with
  | zero => intro image; rfl
  | succ fuel ih =>
    intro image
    have hrun := worker.run_tile_ok ⟨0, 0, 0, 0⟩ (le_refl _) (Or.inl rfl)
    simp only [WorkerThread, RayTracingTaskProducer.produce_gran_zero w h hw hh,
      TaskBase.isStop, Bool.false_eq_true, if_false, hrun, RayTracingResultConsumer.consume]
    exact ih _

/-- C10 (granularity 0 never exhausts the source): for every width and height
at least 1, every `produce` call on a producer constructed with granularity 0
returns the empty tile (0, 0, 0, 0) and leaves the producer, cursor (0, 0)
included, as it was; no call returns the stop task, so a serial drain and the
worker loop run out of every fuel, and in the pool `main` starts with this
granularity no thread ever leaves its loop. -/
theorem granularity_zero_never_stops {Scene Color : Type} [Inhabited Color]
    (worker : RayTracingWorker Scene Color) (width height threadCount : Int)
    (hw : 1 ≤ width) (hh : 1 ≤ height) (image : Image Color) :
    (∀ k, RayTracingTaskProducer.nthCall (RayTracingTaskProducer.init width height 0) k =
        TaskBase.tile ⟨0, 0, 0, 0⟩ ∧
      RayTracingTaskProducer.produceN k (RayTracingTaskProducer.init width height 0) =
        RayTracingTaskProducer.init width height 0) ∧
    (∀ fuel, RayTracingTaskProducer.drain fuel (RayTracingTaskProducer.init width height 0) =
      none) ∧
    (∀ fuel, WorkerThread worker fuel (RayTracingTaskProducer.init width height 0) image =
      none) ∧
    (mainPool width height 0 threadCount image).producer =
      RayTracingTaskProducer.init width height 0 ∧
    ∀ sched s,
      ThreadPool.exec worker sched (mainPool width height 0 threadCount image) = some s →
      ∀ th ∈ s.threads, th.pc.exited = false := by
  refine ⟨fun k => ⟨RayTracingTaskProducer.nthCall_gran_zero width height hw hh k,
    RayTracingTaskProducer.produceN_gran_zero width height hw hh k⟩, fun fuel => ?_,
    fun fuel => WorkerThread_gran_zero worker width height hw hh fuel image, rfl, ?_⟩
  · exact RayTracingTaskProducer.drain_nonpos fuel _ (le_refl _)
      (by simp [RayTracingTaskProducer.init]; omega)
  · intro sched s he th hmem
    have hc := ThreadPool.exec_consistent_start worker width height 0 threadCount image sched s he
    have hsound := ThreadPool.exec_sound worker (RayTracingTaskProducer.init width height 0)
      (fun j _ => ⟨⟨0, 0, 0, 0⟩, RayTracingTaskProducer.nthCall_gran_zero width height hw hh j,
        le_refl _, le_refl _⟩) sched _ s
      (ThreadPool.consistent_start width height 0 threadCount image)
      (ThreadPool.sound_start worker width height 0 threadCount image) he th hmem
    cases hpc : th.pc with
    | loop => rfl
    | execute t => rfl
    | publish r => rfl
    | terminate =>
      have := hc.stop_seen th hmem hpc
      rw [RayTracingTaskProducer.nthCall_gran_zero width height hw hh] at this
      cases this
    | aborted e => rw [hpc] at hsound; exact absurd hsound (by simp [ThreadPC.sound])

/-- C10 on a 3 x 2 image: call number 7 returns the empty tile and the drain
runs out of a fuel of 50. -/
theorem granularity_zero_never_stops_witness :
    (1 : Int) ≤ 3 ∧ (1 : Int) ≤ 2 ∧
    RayTracingTaskProducer.nthCall (RayTracingTaskProducer.init 3 2 0) 7 =
      TaskBase.tile ⟨0, 0, 0, 0⟩ ∧
    RayTracingTaskProducer.drain 50 (RayTracingTaskProducer.init 3 2 0) = none :=
  ⟨by decide, by decide,
    ((granularity_zero_never_stops (⟨⟨fun _ _ _ _ => ()⟩, (), 1⟩ : RayTracingWorker Unit Unit)
      3 2 1 (by decide) (by decide) (fun _ _ => ())).1 7).1,
    (granularity_zero_never_stops (⟨⟨fun _ _ _ _ => ()⟩, (), 1⟩ : RayTracingWorker Unit Unit)
      3 2 1 (by decide) (by decide) (fun _ _ => ())).2.1 50⟩

/-! ## The cursor stays in range -/

namespace RayTracingTaskProducer

/-- One call keeps the cursor in `[0, max width 1) × [0, max heigth 0 + gran)`;
the sums `posX + gran` and `posY + gran` it computes are below
`max width 1 + gran` and `max heigth 0 + gran`. -/
theorem produce_in_range (p : RayTracingTaskProducer) (hg : 1 ≤ p.gran)
    (hx : 0 ≤ p.posX ∧ p.posX < max p.width 1)
    (hy : 0 ≤ p.posY ∧ p.posY < max p.heigth 0 + p.gran) :
    (produce p).2.width = p.width ∧ (produce p).2.heigth = p.heigth ∧
    (produce p).2.gran = p.gran ∧
    (0 ≤ (produce p).2.posX ∧ (produce p).2.posX < max p.width 1) ∧
    (0 ≤ (produce p).2.posY ∧ (produce p).2.posY < max p.heigth 0 + p.gran) := by
  by_cases hstop : p.heigth ≤ p.posY
  · rw [produce_stop hstop]
    exact ⟨rfl, rfl, rfl, hx, hy⟩
  · by_cases hw : p.width ≤ p.posX + p.gran
    · rw [produce_wrap (by omega) hw]
      refine ⟨rfl, rfl, rfl, ⟨?_, ?_⟩, ⟨?_, ?_⟩⟩ <;> dsimp only <;> omega
    · rw [produce_advance (p := p) (by omega) (by omega)]
      refine ⟨rfl, rfl, rfl, ⟨?_, ?_⟩, ⟨?_, ?_⟩⟩ <;> dsimp only <;> omega

/-- The cursor of a fresh producer stays in
`[0, max width 1) × [0, max heigth 0 + gran)` call after call. -/
theorem produceN_in_range (w h g : Int) (hg : 1 ≤ g) (k : Nat) :
    (produceN k (init w h g)).width = w ∧ (produceN k (init w h g)).heigth = h ∧
    (produceN k (init w h g)).gran = g ∧
    (0 ≤ (produceN k (init w h g)).posX ∧ (produceN k (init w h g)).posX < max w 1) ∧
    (0 ≤ (produceN k (init w h g)).posY ∧ (produceN k (init w h g)).posY < max h 0 + g) := by
  induction k with
  | zero =>
    refine ⟨rfl, rfl, rfl, ⟨?_, ?_⟩, ⟨?_, ?_⟩⟩ <;> simp only [produceN, init] <;> omega
  | succ k ih =>
    obtain ⟨h1, h2, h3, h4, h5⟩ := ih
    rw [produceN_succ]
    have := produce_in_range (produceN k (init w h g)) (by rw [h3]; exact hg)
      (by rw [h1]; exact h4) (by rw [h2, h3]; exact h5)
    rw [h1, h2, h3] at this
    exact this

end RayTracingTaskProducer

/-! ## The image assembled by the pool -/

namespace RayTracingTaskProducer

end RayTracingTaskProducer

namespace ThreadPool

end ThreadPool

